import Mathlib

/-!
# The grid view of drako: `internal/ui/grid_view.go`

A shallow embedding of `Model.renderGrid`, `columnToLetter`,
`Model.renderProfileCounter` and `Model.renderProfileBar`.

Conventions of the embedding.

* A Go `string` is a Lean `String`; positions in a string are counted in
  characters.  The only byte the code searches for or splits on is an ASCII
  one (line feed, backslash), so character positions and Go byte offsets cut
  the text at the same places.
* A Go `int` is an `Int` in the range of 64 bits; the one sum of the file that
  can leave that range (`activeProfileIndex + 1`, line 119) wraps as in Go.
  Lengths, widths and loop indices, which are never negative, are `Nat`.
* Code of the repository that lives outside `grid_view.go` (`GridMaxTextWidth`,
  `gridMode`, the style values, `truncateText`, `Model`) and the results of the
  operating-system lookups are parameters of the definitions.
* The calls into the lipgloss library that a property depends on
  (`Style.Width(w).Align(p).Render`, `JoinHorizontal`) are modelled on text
  without styling control sequences whose glyphs are one column wide.
-/

namespace GridView

/-! ## Go standard library -/

/-- Go `strings.Repeat(" ", n)`. -/
def stringsRepeatSpace (n : Nat) : String :=
  String.mk (List.replicate n ' ')

/-- The pieces of a character sequence between line feeds; there is always at
least one piece. -/
def splitLines : List Char → List (List Char)
  | [] => [[]]
  | ch :: rest =>
    if ch = '\n' then [] :: splitLines rest
    else
      match splitLines rest with
      | [] => [[ch]]
      | l :: ls => (ch :: l) :: ls

/-- The pieces put back together with one line feed between neighbours. -/
def joinLines : List (List Char) → List Char
  | [] => []
  | [l] => l
  | l :: l2 :: ls => l ++ '\n' :: joinLines (l2 :: ls)

/-- Go `strings.Split(s, "\n")`. -/
def stringsSplitLines (s : String) : List String :=
  (splitLines s.data).map String.mk

/-- Go `strings.Join(lines, "\n")`. -/
def stringsJoinLines (lines : List String) : String :=
  String.mk (joinLines (lines.map String.data))

/-- Go `strings.ReplaceAll(s, " ", "─")`. -/
def stringsReplaceSpaces (s : String) : String :=
  String.mk (s.data.map (fun ch => if ch = ' ' then '─' else ch))

/-- Go `strings.LastIndex(s, "\\")` on the characters of `s`: the position of
the last backslash, `-1` when there is none. -/
def stringsLastIndexBackslash : List Char → Int
  | [] => -1
  | ch :: rest =>
    let idx := stringsLastIndexBackslash rest
    if idx ≠ -1 then idx + 1
    else if ch = '\\' then 0
    else -1

/-- Go slice expression `s[k:]`. -/
def sliceFrom (s : String) (k : Nat) : String :=
  String.mk (s.data.drop k)

/-- The value a Go `int` of 64 bits holds after an arithmetic operation whose
exact result is `v`: the result wraps around in two's complement. -/
def wrapInt (v : Int) : Int :=
  (v + 2 ^ 63) % 2 ^ 64 - 2 ^ 63

/-- Go `fmt.Sprintf("%d", v)`. -/
def sprintfD (v : Int) : String :=
  toString v

/-- Go `fmt.Sprintf("%*d", w, v)`: the decimal of `v`, padded on the left with
spaces when it has fewer than `w` characters. -/
def sprintfStarD (w : Nat) (v : Int) : String :=
  stringsRepeatSpace (w - (sprintfD v).length) ++ sprintfD v

/-! ## The view model and its collaborators -/

/-- Modelled from the spec: the view model `Model` is declared outside
`grid_view.go`; these are the fields that `grid_view.go` reads.  The type of
`mode` and the element type of `profiles` are left open. -/
structure Model (Mode Profile : Type) where
  grid : List (List String)
  cursorRow : Int
  cursorCol : Int
  mode : Mode
  profiles : List Profile
  activeProfileIndex : Int
  pivotProfileName : String
  profileStatusMessage : String
  profileStatusPositive : Bool

/-- Modelled from the spec: the values that `grid_view.go` uses and that are
declared elsewhere: the constant `GridMaxTextWidth`, the text measure
`lipgloss.Width`, the helper `truncateText`, the `Render` functions of the
package-level styles, `lipgloss.JoinVertical` and the render of
`lipgloss.NewStyle().PaddingTop(1)`. -/
structure Deps where
  GridMaxTextWidth : Nat
  Width : String → Nat
  truncateText : String → Nat → String
  titleStyle : String → String
  cellStyle : String → String
  selectedCellStyle : String → String
  helpStyle : String → String
  lockBadgeStyle : String → String
  statusNegativeStyle : String → String
  statusPositiveStyle : String → String
  joinVerticalCenter : List String → String
  joinVerticalLeft : List String → String
  paddingTopRender : String → String

/-! ## `renderGrid`: width computation (lines 14-29) -/

/-- The scan of lines 14-22: the running maximum of `lipgloss.Width(cell)`,
started at 0. -/
def scanContentWidth (Width : String → Nat) (grid : List (List String)) : Nat :=
  grid.foldl
    (fun acc row =>
      row.foldl
        (fun maxContentWidth cell =>
          let contentWidth := Width cell
          if contentWidth > maxContentWidth then contentWidth else maxContentWidth)
        acc)
    0

/-- The variable `maxContentWidth` after the clamp of lines 24-26. -/
def maxContentWidth (Width : String → Nat) (GridMaxTextWidth : Nat)
    (grid : List (List String)) : Nat :=
  let scanned := scanContentWidth Width grid
  if scanned > GridMaxTextWidth then GridMaxTextWidth else scanned

/-- The spec's wording of the width: the maximum visual width over all cells
of all rows, 0 when there is no cell. -/
def specMaxVisualWidth (Width : String → Nat) (grid : List (List String)) : Nat :=
  (grid.flatten.map Width).foldr max 0

/-! ## `columnToLetter` (lines 107-112) -/

/-- Go `columnToLetter`: `"?"` outside 0..25, else `string(rune('A' + col))`. -/
def columnToLetter (col : Int) : String :=
  if col < 0 ∨ col > 25 then "?"
  else String.singleton (Char.ofNat (('A'.toNat : Int) + col).toNat)

/-- The uppercase Latin alphabet, in order. -/
def upperLatin : List Char :=
  "ABCDEFGHIJKLMNOPQRSTUVWXYZ".data

/-! ## `renderProfileCounter` (lines 114-125) -/

/-- The string `counter` of line 123, the argument of `titleStyle.Render`. -/
def profileCounterText {Mode Profile : Type} (m : Model Mode Profile) : String :=
  let y : Int := m.profiles.length
  let y := if y > 9 then 9 else y
  let x := wrapInt (m.activeProfileIndex + 1)
  let x := if x > 9 then 9 else x
  "< " ++ sprintfD x ++ " / " ++ sprintfD y ++ " >"

/-- Go `Model.renderProfileCounter`. -/
def renderProfileCounter {Mode Profile : Type} (deps : Deps) (m : Model Mode Profile) : String :=
  deps.titleStyle (profileCounterText m)

/-! ## The lipgloss calls, on unstyled text of one-column glyphs -/

/-- The two horizontal positions the code passes: `lipgloss.Left` (the same
value, 0.0, as `lipgloss.Top`) and `lipgloss.Center`. -/
inductive Position where
  | left
  | center
  deriving DecidableEq

/-- The widest line of a text, `lipgloss.Width` on unstyled one-column glyphs. -/
def plainWidth (s : String) : Nat :=
  ((stringsSplitLines s).map String.length).foldr max 0

/-- The forced wrap that `Style.Render` applies when a width is set: a line feed
is inserted before the glyph that would make the line longer than `limit`;
`lineLen` is the length of the current line.  The text is taken to have no
word boundary before the limit (true of the header labels, which are one
word); text that fits is left as it is. -/
def wrapChars (limit : Nat) : Nat → List Char → List Char
  | _, [] => []
  | lineLen, ch :: rest =>
    if ch = '\n' then '\n' :: wrapChars limit 0 rest
    else if lineLen + 1 > limit then '\n' :: ch :: wrapChars limit 1 rest
    else ch :: wrapChars limit (lineLen + 1) rest

/-- One line of lipgloss `alignTextHorizontal`: the line is padded with spaces
up to the widest line and up to `width`; when centring, the odd space goes to
the right. -/
def alignLine (pos : Position) (width widestLine : Nat) (l : String) : String :=
  let lineWidth := l.length
  let shortAmount := widestLine - lineWidth
  let shortAmount := shortAmount + (width - (shortAmount + lineWidth))
  if shortAmount > 0 then
    match pos with
    | Position.center =>
      let left := shortAmount / 2
      let right := left + shortAmount % 2
      stringsRepeatSpace left ++ l ++ stringsRepeatSpace right
    | Position.left => l ++ stringsRepeatSpace shortAmount
  else l

/-- The lipgloss function `alignTextHorizontal`. -/
def alignTextHorizontal (str : String) (pos : Position) (width : Nat) : String :=
  let lines := stringsSplitLines str
  let widestLine := (lines.map String.length).foldr max 0
  stringsJoinLines (lines.map (alignLine pos width widestLine))

/-- The render of `lipgloss.NewStyle().Width(width).Align(pos)`: wrap to the
width when it is positive, then align, unless the text is one line and no
width is set. -/
def renderWidthAlign (width : Nat) (pos : Position) (str : String) : String :=
  let str := if width > 0 then String.mk (wrapChars width 0 str.data) else str
  let numLines := str.data.count '\n'
  if ¬ (numLines = 0 ∧ width = 0) then alignTextHorizontal str pos width else str

/-- The lipgloss function `JoinHorizontal` at position 0.0 (`lipgloss.Left`,
`lipgloss.Top`): nothing for no block, the block itself for one block, else the
blocks side by side, shorter blocks continued below with empty lines and every
line padded to the width of its block. -/
def joinHorizontalTop (strs : List String) : String :=
  match strs with
  | [] => ""
  | [s] => s
  | _ =>
    let blocks := strs.map stringsSplitLines
    let maxWidths := blocks.map (fun b => (b.map String.length).foldr max 0)
    let maxHeight := (blocks.map List.length).foldr max 0
    let blocks := blocks.map (fun b => b ++ List.replicate (maxHeight - b.length) "")
    let merged := (List.range maxHeight).map (fun i =>
      String.join ((blocks.zip maxWidths).map (fun bw =>
        let line := bw.1.getD i ""
        line ++ stringsRepeatSpace (bw.2 - line.length))))
    stringsJoinLines merged

/-! ## `renderGrid`: header (lines 31-51) -/

/-- The string `headerLabel` of line 35. -/
def headerLabel (c : Int) : String :=
  "[" ++ columnToLetter c ++ "]"

/-- The string `headerPart` of lines 35-47 for column `c`. -/
def headerPart (titleStyle : String → String) (maxContentWidth : Nat) (c : Int) : String :=
  let totalCellWidth := maxContentWidth + 4
  let styledLabel := titleStyle (headerLabel c)
  let headerContentWidth := totalCellWidth - 2
  let headerContent := renderWidthAlign headerContentWidth Position.center styledLabel
  let headerWithLines := stringsReplaceSpaces headerContent
  "┌" ++ headerWithLines ++ "┐"

/-- The slice `headerParts` after the loop of lines 33-50. -/
def headerParts (titleStyle : String → String) (maxContentWidth : Nat)
    (grid : List (List String)) : List String :=
  match grid with
  | [] => []
  | row0 :: _ =>
    (List.range row0.length).map (fun (c : Nat) => headerPart titleStyle maxContentWidth (c : Int))

/-- The string `fullHeader` of line 51. -/
def fullHeader (titleStyle : String → String) (maxContentWidth : Nat)
    (grid : List (List String)) : String :=
  joinHorizontalTop (headerParts titleStyle maxContentWidth grid)

/-! ## `renderGrid`: body (lines 53-77) -/

/-- The style a cell is rendered with: one of the two package-level styles. -/
inductive CellStyle where
  | selectedCellStyle
  | cellStyle
  deriving DecidableEq

/-- The choice of lines 58-63. -/
def chooseStyle {Mode : Type} [DecidableEq Mode] (gridMode mode : Mode)
    (cursorRow cursorCol : Int) (r c : Nat) : CellStyle :=
  if mode = gridMode ∧ (r : Int) = cursorRow ∧ (c : Int) = cursorCol then CellStyle.selectedCellStyle
  else CellStyle.cellStyle

/-- The style chosen and the string `paddedContent` it is applied to, for every
cell, in the order of the loops of lines 55-75. -/
def styledCells {Mode Profile : Type} [DecidableEq Mode] (deps : Deps) (gridMode : Mode)
    (m : Model Mode Profile) : List (List (CellStyle × String)) :=
  let mcw := maxContentWidth deps.Width deps.GridMaxTextWidth m.grid
  m.grid.mapIdx (fun r row =>
    row.mapIdx (fun c cell =>
      let style := chooseStyle gridMode m.mode m.cursorRow m.cursorCol r c
      let truncatedContent := deps.truncateText cell mcw
      let paddedContent := renderWidthAlign mcw Position.left truncatedContent
      (style, paddedContent)))

/-- The call `style.Render(paddedContent)` of line 73. -/
def renderCell (deps : Deps) (cell : CellStyle × String) : String :=
  match cell.1 with
  | CellStyle.selectedCellStyle => deps.selectedCellStyle cell.2
  | CellStyle.cellStyle => deps.cellStyle cell.2

/-- The slice `renderedRows` after the loop of lines 55-77. -/
def renderedRows {Mode Profile : Type} [DecidableEq Mode] (deps : Deps) (gridMode : Mode)
    (m : Model Mode Profile) : List String :=
  (styledCells deps gridMode m).map (fun cells => joinHorizontalTop (cells.map (renderCell deps)))

/-! ## `renderGrid`: row indicators and assembly (lines 79-105) -/

/-- The variable `maxRowNumWidth` of line 82 when `renderedRows` has `n` entries. -/
def maxRowNumWidth (n : Nat) : Nat :=
  (sprintfD (n : Int)).length

/-- The string `rowPrefix` of line 83. -/
def rowPrefix (n : Nat) : String :=
  stringsRepeatSpace (maxRowNumWidth n + 1)

/-- The string `rowNum` of line 85 for the row of index `i`. -/
def rowNum (n i : Nat) : String :=
  sprintfStarD (maxRowNumWidth n) ((i : Int) + 1) ++ "❭"

/-- The string `headerPadding` of line 99. -/
def headerPadding (n : Nat) : String :=
  stringsRepeatSpace (maxRowNumWidth n + 1)

/-- The body of the loop of lines 84-96 for the row block `row` of index `i`:
the element appended to `finalRows`. -/
def withRowIndicator (n i : Nat) (row : String) : String :=
  let lines := stringsSplitLines row
  let lines := lines.mapIdx (fun j line =>
    if j = 0 then rowNum n i ++ line else rowPrefix n ++ line)
  stringsJoinLines lines

/-- The slice `finalRows` after the loop of lines 84-96. -/
def finalRows (renderedRows : List String) : List String :=
  renderedRows.mapIdx (fun i row => withRowIndicator renderedRows.length i row)

/-- Go `Model.renderGrid`. -/
def renderGrid {Mode Profile : Type} [DecidableEq Mode] (deps : Deps) (gridMode : Mode)
    (m : Model Mode Profile) : String :=
  let mcw := maxContentWidth deps.Width deps.GridMaxTextWidth m.grid
  let fullHeader := fullHeader deps.titleStyle mcw m.grid
  let renderedRows := renderedRows deps gridMode m
  let finalRows := finalRows renderedRows
  let paddedHeader := headerPadding renderedRows.length ++ fullHeader
  let gridBody := deps.joinVerticalCenter finalRows
  deps.joinVerticalLeft [paddedHeader, gridBody]

/-! ## `renderProfileBar` (lines 127-165) -/

/-- The record `user.User` of the Go standard library, its field `Username`. -/
structure User where
  Username : String

/-- The operating-system providers read by `renderProfileBar`: the result of
`os.Hostname` (`none` when it returns an error), of `user.Current` (`none` when
it returns no user), the function `os.Getenv`, and the constants
`runtime.GOOS` and `runtime.GOARCH`. -/
structure OSEnv where
  Hostname : Option String
  Current : Option User
  Getenv : String → String
  GOOS : String
  GOARCH : String

/-- The variable `hostname` of line 128: `os.Hostname` returns the empty string
together with its error. -/
def hostnameOf (os : OSEnv) : String :=
  match os.Hostname with
  | some name => name
  | none => ""

/-- The variable `username` after lines 129-136; the initial value `"unknown"`
of line 130 is overwritten on both branches. -/
def resolvedUsername (os : OSEnv) : String :=
  match os.Current with
  | some currUser => currUser.Username
  | none => os.Getenv "USER"

/-- The clean-up of lines 139-141. -/
def cleanUsername (username : String) : String :=
  let idx := stringsLastIndexBackslash username.data
  if idx ≠ -1 then sliceFrom username (idx + 1).toNat else username

/-- The variable `username` as it is used in line 146. -/
def shownUsername (os : OSEnv) : String :=
  cleanUsername (resolvedUsername os)

/-- The string `hostLabel` of line 146. -/
def hostLabel (deps : Deps) (os : OSEnv) : String :=
  let osArch := "(" ++ os.GOOS ++ "/" ++ os.GOARCH ++ ")"
  "HOST: " ++ shownUsername os ++ "@" ++ hostnameOf os ++ " " ++ osArch ++ deps.helpStyle " | "

/-- The slice `segments` of lines 149-162; `activeProfileName` is the result of
the method `m.activeProfileName()`, declared outside `grid_view.go`. -/
def profileBarSegments {Mode Profile : Type} (deps : Deps) (os : OSEnv)
    (activeProfileName : String) (m : Model Mode Profile) : List String :=
  let profileLabel := "PROFILE: "
  let segments := [hostLabel deps os ++ profileLabel ++ activeProfileName]
  let segments :=
    if m.pivotProfileName ≠ "" then segments ++ [deps.lockBadgeStyle ("🔒 " ++ m.pivotProfileName)]
    else segments
  if m.profileStatusMessage ≠ "" then
    let style := if m.profileStatusPositive then deps.statusPositiveStyle else deps.statusNegativeStyle
    segments ++ [style m.profileStatusMessage]
  else segments

/-- The text that line 164 pads: the segments joined left to right. -/
def profileBarText {Mode Profile : Type} (deps : Deps) (os : OSEnv)
    (activeProfileName : String) (m : Model Mode Profile) : String :=
  joinHorizontalTop (profileBarSegments deps os activeProfileName m)

/-- Go `Model.renderProfileBar`. -/
def renderProfileBar {Mode Profile : Type} (deps : Deps) (os : OSEnv)
    (activeProfileName : String) (m : Model Mode Profile) : String :=
  deps.paddingTopRender (profileBarText deps os activeProfileName m)

/-! ## A sample instantiation -/

/-- A sample of the collaborators, to evaluate the definitions on concrete
inputs: styles that add nothing to the text, the width of unstyled text, a
ceiling of 10, a cut to the first `n` characters for `truncateText`, plain line
joins. -/
def sampleDeps : Deps where
  GridMaxTextWidth := 10
  Width := plainWidth
  truncateText := fun s n => String.mk (s.data.take n)
  titleStyle := id
  cellStyle := id
  selectedCellStyle := id
  helpStyle := id
  lockBadgeStyle := id
  statusNegativeStyle := id
  statusPositiveStyle := id
  joinVerticalCenter := stringsJoinLines
  joinVerticalLeft := stringsJoinLines
  paddingTopRender := fun s => "\n" ++ s

/-- The scenario grid of the spec with the cursor on "ccc", in grid mode (mode
1 of a sample numbering), 20 profiles, the sixteenth active. -/
def sampleModel : Model Nat Unit where
  grid := [["a", "bb"], ["ccc", "d"]]
  cursorRow := 1
  cursorCol := 0
  mode := 1
  profiles := List.replicate 20 ()
  activeProfileIndex := 15
  pivotProfileName := ""
  profileStatusMessage := ""
  profileStatusPositive := false

/-- A sample of the operating-system providers: the hostname lookup succeeds,
the user lookup fails, and `USER` holds a name with a domain prefix. -/
def sampleOS : OSEnv where
  Hostname := some "host"
  Current := none
  Getenv := fun name => if name = "USER" then "CORP\\alice" else ""
  GOOS := "linux"
  GOARCH := "amd64"

/-- A sample of the operating-system providers where both lookups fail and
`USER` is "alice". -/
def sampleOSAlice : OSEnv where
  Hostname := none
  Current := none
  Getenv := fun name => if name = "USER" then "alice" else ""
  GOOS := "linux"
  GOARCH := "amd64"

/-- One profile, and the greatest `int` as active index. -/
def sampleModelMaxIndex : Model Nat Unit where
  grid := []
  cursorRow := 0
  cursorCol := 0
  mode := 0
  profiles := [()]
  activeProfileIndex := 9223372036854775807
  pivotProfileName := ""
  profileStatusMessage := ""
  profileStatusPositive := false

/-- The sample model with the pivot profile "p" set. -/
def sampleModelPivot : Model Nat Unit where
  grid := [["a", "bb"], ["ccc", "d"]]
  cursorRow := 1
  cursorCol := 0
  mode := 1
  profiles := List.replicate 20 ()
  activeProfileIndex := 15
  pivotProfileName := "p"
  profileStatusMessage := ""
  profileStatusPositive := false

/-- A sample of the operating-system providers where the user lookup fails,
`USER` is "alice" and the hostname holds a line feed. -/
def sampleOSLineFeed : OSEnv where
  Hostname := some "a\nb"
  Current := none
  Getenv := fun name => if name = "USER" then "alice" else ""
  GOOS := "linux"
  GOARCH := "amd64"

/-! # Properties -/

set_option maxRecDepth 8000

theorem foldl_rowMax_eq (Width : String → Nat) (row : List String) (acc : Nat) :
    row.foldl (fun m cell => if Width cell > m then Width cell else m) acc
      = max acc ((row.map Width).foldr max 0) := by
  induction row generalizing acc with
  | nil => simp
  | cons cell rest ih =>
    simp only [List.foldl_cons, List.map_cons, List.foldr_cons]
    rw [ih]
    split <;> omega

theorem scan_from_eq (Width : String → Nat) (grid : List (List String)) (acc : Nat) :
    grid.foldl
        (fun acc row =>
          row.foldl (fun m cell => if Width cell > m then Width cell else m) acc) acc
      = max acc (specMaxVisualWidth Width grid) := by
  induction grid generalizing acc with
  | nil => simp [specMaxVisualWidth]
  | cons row rest ih =>
    simp only [List.foldl_cons]
    rw [ih, foldl_rowMax_eq]
    have hsplit : specMaxVisualWidth Width (row :: rest)
        = max ((row.map Width).foldr max 0) (specMaxVisualWidth Width rest) := by
      unfold specMaxVisualWidth
      simp only [List.flatten_cons, List.map_append, List.foldr_append]
      generalize (List.map Width rest.flatten).foldr max 0 = t
      induction row with
      | nil => simp
      | cons a r ihr => simp only [List.map_cons, List.foldr_cons, ihr]; omega
    rw [hsplit]
    omega

theorem scanContentWidth_eq (Width : String → Nat) (grid : List (List String)) :
    scanContentWidth Width grid = specMaxVisualWidth Width grid := by
  unfold scanContentWidth
  have h := scan_from_eq Width grid 0
  simpa using h

theorem specMax_upper (Width : String → Nat) (grid : List (List String)) :
    ∀ row ∈ grid, ∀ cell ∈ row, Width cell ≤ specMaxVisualWidth Width grid := by
  intro row hrow cell hcell
  have hmem : Width cell ∈ grid.flatten.map Width :=
    List.mem_map.mpr ⟨cell, List.mem_flatten.mpr ⟨row, hrow, hcell⟩, rfl⟩
  unfold specMaxVisualWidth
  generalize grid.flatten.map Width = ws at hmem
  induction ws with
  | nil => cases hmem
  | cons w rest ih =>
    simp only [List.foldr_cons]
    rcases List.mem_cons.mp hmem with h | h
    · omega
    · have := ih h; omega

theorem specMax_attained (Width : String → Nat) (grid : List (List String)) :
    (∃ row ∈ grid, ∃ cell ∈ row, Width cell = specMaxVisualWidth Width grid)
      ∨ ((∀ row ∈ grid, row = []) ∧ specMaxVisualWidth Width grid = 0) := by
  have key : ∀ ws : List Nat, ws.foldr max 0 ∈ ws ∨ (ws = [] ∧ ws.foldr max 0 = 0) := by
    intro ws
    induction ws with
    | nil => right; simp
    | cons w rest ih =>
      left
      simp only [List.foldr_cons]
      rcases ih with h | ⟨h, h0⟩
      · rcases Nat.le_total w (rest.foldr max 0) with hle | hle
        · rw [Nat.max_eq_right hle]; exact List.mem_cons_of_mem _ h
        · rw [Nat.max_eq_left hle]; exact List.mem_cons_self _ _
      · rw [h0, Nat.max_eq_left (Nat.zero_le _)]; exact List.mem_cons_self _ _
  rcases key (grid.flatten.map Width) with h | ⟨h, h0⟩
  · left
    obtain ⟨cell, hcell, hw⟩ := List.mem_map.mp h
    obtain ⟨row, hrow, hin⟩ := List.mem_flatten.mp hcell
    exact ⟨row, hrow, cell, hin, hw⟩
  · right
    refine ⟨?_, h0⟩
    intro row hrow
    have hflat : grid.flatten = [] := by simpa using h
    cases row with
    | nil => rfl
    | cons a r =>
      have : a ∈ grid.flatten := List.mem_flatten.mpr ⟨_, hrow, List.mem_cons_self _ _⟩
      rw [hflat] at this
      cases this

/-- C1: the `maxContentWidth` of `renderGrid` is `min(GridMaxTextWidth, M)` where
`M`, the fold of `max` over the widths of all cells started at 0, is an upper
bound of every cell width and is the width of some cell (or 0 when the grid has
no cell); for `[["a","bb"],["ccc","d"]]` with ceiling 10 it is 3. -/
theorem maxContentWidth_eq_min (Width : String → Nat) (GridMaxTextWidth : Nat)
    (grid : List (List String)) :
    maxContentWidth Width GridMaxTextWidth grid
        = min GridMaxTextWidth (specMaxVisualWidth Width grid)
      ∧ (∀ row ∈ grid, ∀ cell ∈ row, Width cell ≤ specMaxVisualWidth Width grid)
      ∧ ((∃ row ∈ grid, ∃ cell ∈ row, Width cell = specMaxVisualWidth Width grid)
          ∨ ((∀ row ∈ grid, row = []) ∧ specMaxVisualWidth Width grid = 0))
      ∧ maxContentWidth String.length 10 [["a", "bb"], ["ccc", "d"]] = 3 := by
  refine ⟨?_, specMax_upper Width grid, specMax_attained Width grid, by decide⟩
  unfold maxContentWidth
  rw [scanContentWidth_eq]
  simp only
  split <;> omega

/-- Witness of C1 on the scenario grid. -/
theorem maxContentWidth_eq_min_witness :
    maxContentWidth plainWidth 10 [["a", "bb"], ["ccc", "d"]]
      = min 10 (specMaxVisualWidth plainWidth [["a", "bb"], ["ccc", "d"]]) :=
  (maxContentWidth_eq_min plainWidth 10 [["a", "bb"], ["ccc", "d"]]).1

theorem columnToLetter_decode (col : Int) (h0 : 0 ≤ col) (h25 : col ≤ 25) :
    upperLatin[col.toNat]? = (columnToLetter col).data.head?
      ∧ (columnToLetter col).data.length = 1
      ∧ ((((columnToLetter col).data.headD 'A').toNat : Int) - 65 = col) := by
  interval_cases col <;> decide

/-- C2: `columnToLetter` is total; for `0 <= col <= 25` it is the one-character
string of the letter at position `col` of the uppercase Latin alphabet (0 gives
"A", 25 gives "Z", distinct valid indices give distinct labels) and for
`col < 0` or `col > 25` it is "?" (so for 26 and -1). -/
theorem columnToLetter_spec :
    (∀ col : Int, 0 ≤ col → col ≤ 25 →
        ∃ ch, upperLatin[col.toNat]? = some ch ∧ columnToLetter col = String.singleton ch)
      ∧ (∀ col : Int, col < 0 ∨ col > 25 → columnToLetter col = "?")
      ∧ columnToLetter 0 = "A" ∧ columnToLetter 25 = "Z"
      ∧ columnToLetter 26 = "?" ∧ columnToLetter (-1) = "?"
      ∧ (∀ a b : Int, 0 ≤ a → a ≤ 25 → 0 ≤ b → b ≤ 25 →
          columnToLetter a = columnToLetter b → a = b) := by
  refine ⟨?_, ?_, by decide, by decide, by decide, by decide, ?_⟩
  · intro col h0 h25
    have hnot : ¬ (col < 0 ∨ col > 25) := by omega
    refine ⟨Char.ofNat (('A'.toNat : Int) + col).toNat, ?_, ?_⟩
    · interval_cases col <;> decide
    · simp [columnToLetter, hnot]
  · intro col h
    simp [columnToLetter, h]
  · intro a b ha0 ha25 hb0 hb25 hab
    have hda := (columnToLetter_decode a ha0 ha25).2.2
    have hdb := (columnToLetter_decode b hb0 hb25).2.2
    rw [hab] at hda
    omega

/-- Witness of C2 at column 3. -/
theorem columnToLetter_spec_witness :
    ∃ ch, upperLatin[(3 : Int).toNat]? = some ch ∧ columnToLetter 3 = String.singleton ch :=
  columnToLetter_spec.1 3 (by decide) (by decide)

/-- C3 as stated fails at the greatest `int`: with `activeProfileIndex`
9223372036854775807 and one profile the sum `activeProfileIndex + 1` wraps and
the text is "< -9223372036854775808 / 1 >", not "< 9 / 1 >" as
`min(activeProfileIndex + 1, 9)` would give. -/
theorem profileCounterText_overflow :
    profileCounterText sampleModelMaxIndex = "< -9223372036854775808 / 1 >"
      ∧ "< " ++ toString (min (sampleModelMaxIndex.activeProfileIndex + 1) 9) ++ " / "
            ++ toString (min (sampleModelMaxIndex.profiles.length : Int) 9) ++ " >"
          = "< 9 / 1 >"
      ∧ profileCounterText sampleModelMaxIndex
          ≠ "< " ++ toString (min (sampleModelMaxIndex.activeProfileIndex + 1) 9) ++ " / "
              ++ toString (min (sampleModelMaxIndex.profiles.length : Int) 9) ++ " >" := by
  decide

theorem wrapInt_of_inRange (v : Int) (hlo : -2 ^ 63 ≤ v) (hhi : v < 2 ^ 63) :
    wrapInt v = v := by
  unfold wrapInt
  omega

/-- C3, amended: for an `int` active index below the greatest `int`, the text
handed to the title style by `renderProfileCounter` is "< x / y >" with
`x = min(activeProfileIndex + 1, 9)` and `y = min(len(profiles), 9)` in
decimal; at the greatest `int` the sum wraps and `x` is
-9223372036854775808, `y` being as before; index 15 of 20 profiles gives
"< 9 / 9 >". -/
theorem profileCounterText_spec {Mode Profile : Type} (deps : Deps) (m : Model Mode Profile)
    (hlo : -2 ^ 63 ≤ m.activeProfileIndex) (hhi : m.activeProfileIndex ≤ 2 ^ 63 - 1) :
    (m.activeProfileIndex < 2 ^ 63 - 1 →
        profileCounterText m
          = "< " ++ toString (min (m.activeProfileIndex + 1) 9) ++ " / "
              ++ toString (min (m.profiles.length : Int) 9) ++ " >")
      ∧ (m.activeProfileIndex = 2 ^ 63 - 1 →
          profileCounterText m
            = "< " ++ "-9223372036854775808" ++ " / "
                ++ toString (min (m.profiles.length : Int) 9) ++ " >")
      ∧ renderProfileCounter deps m = deps.titleStyle (profileCounterText m)
      ∧ (m.activeProfileIndex = 15 → m.profiles.length = 20 →
          profileCounterText m = "< 9 / 9 >") := by
  have hy : (if (m.profiles.length : Int) > 9 then (9 : Int) else (m.profiles.length : Int))
      = min (m.profiles.length : Int) 9 := by
    split <;> omega
  have hmain : m.activeProfileIndex < 2 ^ 63 - 1 →
      profileCounterText m
        = "< " ++ toString (min (m.activeProfileIndex + 1) 9) ++ " / "
            ++ toString (min (m.profiles.length : Int) 9) ++ " >" := by
    intro hlt
    have hw : wrapInt (m.activeProfileIndex + 1) = m.activeProfileIndex + 1 :=
      wrapInt_of_inRange _ (by omega) (by omega)
    have hx : (if m.activeProfileIndex + 1 > 9 then (9 : Int) else m.activeProfileIndex + 1)
        = min (m.activeProfileIndex + 1) 9 := by
      split <;> omega
    simp only [profileCounterText, sprintfD, hw, hx, hy]
  refine ⟨hmain, ?_, rfl, ?_⟩
  · intro hmax
    have hw : wrapInt (m.activeProfileIndex + 1) = -9223372036854775808 := by
      rw [hmax]
      decide
    have hx : (if (-9223372036854775808 : Int) > 9 then (9 : Int) else -9223372036854775808)
        = -9223372036854775808 := by decide
    have hs : toString (-9223372036854775808 : Int) = "-9223372036854775808" := by decide
    simp only [profileCounterText, sprintfD, hw, hx, hy, hs]
  · intro hi hl
    rw [hmain (by omega), hi, hl]
    decide

/-- Witness of C3 amended: the sixteenth of 20 profiles. -/
theorem profileCounterText_spec_witness :
    (-2 ^ 63 : Int) ≤ sampleModel.activeProfileIndex
      ∧ sampleModel.activeProfileIndex ≤ 2 ^ 63 - 1
      ∧ profileCounterText sampleModel = "< 9 / 9 >" :=
  ⟨by decide, by decide,
    (profileCounterText_spec sampleDeps sampleModel (by decide) (by decide)).2.2.2 rfl
      (by decide)⟩

theorem toDigitsCore_length_log (f : Nat) : ∀ (n : Nat) (ds : List Char), n < f →
    (Nat.toDigitsCore 10 f n ds).length = ds.length + Nat.log 10 n + 1 := by
  induction f with
  | zero => intro n ds h; omega
  | succ f ih =>
    intro n ds h
    simp only [Nat.toDigitsCore]
    by_cases hq : n / 10 = 0
    · simp only [hq, if_true, List.length_cons]
      have hlt : n < 10 := by omega
      rw [Nat.log_of_lt hlt]
    · simp only [hq, if_false]
      have hlt : n / 10 < f := by omega
      rw [ih (n / 10) _ hlt, List.length_cons, Nat.log_div_base]
      have hge : 10 ≤ n := by omega
      have hpos : 0 < Nat.log 10 n := Nat.log_pos (by decide) hge
      omega

theorem repr_length_log (n : Nat) : (Nat.repr n).length = Nat.log 10 n + 1 := by
  have h := toDigitsCore_length_log (n + 1) n [] (Nat.lt_succ_self n)
  simpa [Nat.repr, Nat.toDigits, List.asString] using h

theorem digitChar_mem (d : Nat) (h : d < 10) : Nat.digitChar d ∈ "0123456789".data := by
  interval_cases d <;> decide

theorem toDigitsCore_mem (f : Nat) : ∀ (n : Nat) (ds : List Char) (ch : Char),
    ch ∈ Nat.toDigitsCore 10 f n ds → ch ∈ ds ∨ ch ∈ "0123456789".data := by
  induction f with
  | zero => intro n ds ch h; left; simpa [Nat.toDigitsCore] using h
  | succ f ih =>
    intro n ds ch h
    simp only [Nat.toDigitsCore] at h
    have hd := digitChar_mem (n % 10) (Nat.mod_lt _ (by decide))
    by_cases hq : n / 10 = 0
    · simp only [hq, if_true] at h
      rcases List.mem_cons.mp h with h | h
      · right; rw [h]; exact hd
      · left; exact h
    · simp only [hq, if_false] at h
      rcases ih _ _ _ h with h | h
      · rcases List.mem_cons.mp h with h | h
        · right; rw [h]; exact hd
        · left; exact h
      · right; exact h

theorem repr_mem_digits (n : Nat) (ch : Char) (h : ch ∈ (Nat.repr n).data) :
    ch ∈ "0123456789".data := by
  have := toDigitsCore_mem (n + 1) n [] ch (by simpa [Nat.repr, Nat.toDigits, List.asString] using h)
  simpa using this

theorem sprintfD_natCast (k : Nat) : sprintfD (k : Int) = Nat.repr k := rfl

theorem sprintfD_succ (i : Nat) : sprintfD ((i : Int) + 1) = Nat.repr (i + 1) := rfl

theorem maxRowNumWidth_eq_log (n : Nat) : maxRowNumWidth n = Nat.log 10 n + 1 := by
  unfold maxRowNumWidth
  rw [sprintfD_natCast, repr_length_log]

theorem length_stringsRepeatSpace (n : Nat) : (stringsRepeatSpace n).length = n := by
  simp [stringsRepeatSpace, String.length]

theorem rowNum_length (n i : Nat) (hi : i < n) : (rowNum n i).length = maxRowNumWidth n + 1 := by
  have hmono : Nat.log 10 (i + 1) ≤ Nat.log 10 n := Nat.log_mono_right hi
  have hlabel : ("❭" : String).length = 1 := by decide
  unfold rowNum sprintfStarD
  rw [String.length_append, String.length_append, length_stringsRepeatSpace, hlabel,
    sprintfD_succ, repr_length_log, maxRowNumWidth_eq_log]
  omega

/-- C4: `maxRowNumWidth` is the number of decimal digits of the row count (one
digit for 0); for a row index `i < n` the label `rowNum` is the decimal of
`i + 1` after exactly the spaces that bring it to `maxRowNumWidth` characters,
followed by ❭, so the label has `maxRowNumWidth + 1` characters, as many as
the continuation prefix and the header padding, which are all spaces; for 12
rows the width is 2 and the first label is " 1❭". -/
theorem rowNum_spec (n i : Nat) (hi : i < n) :
    (∀ k : Nat, maxRowNumWidth k = if k = 0 then 1 else (Nat.digits 10 k).length)
      ∧ (∃ pad : Nat, rowNum n i = stringsRepeatSpace pad ++ sprintfD ((i : Int) + 1) ++ "❭"
            ∧ pad + (sprintfD ((i : Int) + 1)).length = maxRowNumWidth n
            ∧ sprintfD ((i : Int) + 1) = Nat.repr (i + 1))
      ∧ (rowNum n i).length = maxRowNumWidth n + 1
      ∧ (rowPrefix n).length = maxRowNumWidth n + 1
      ∧ (headerPadding n).length = maxRowNumWidth n + 1
      ∧ rowPrefix n = String.mk (List.replicate (maxRowNumWidth n + 1) ' ')
      ∧ headerPadding n = String.mk (List.replicate (maxRowNumWidth n + 1) ' ')
      ∧ maxRowNumWidth 12 = 2
      ∧ rowNum 12 0 = " 1❭" := by
  refine ⟨?_, ?_, rowNum_length n i hi, length_stringsRepeatSpace _,
    length_stringsRepeatSpace _, rfl, rfl, by decide, by decide⟩
  · intro k
    by_cases hk : k = 0
    · subst hk; decide
    · rw [if_neg hk, Nat.digits_len 10 k (by decide) hk, maxRowNumWidth_eq_log]
  · refine ⟨maxRowNumWidth n - (sprintfD ((i : Int) + 1)).length, rfl, ?_, rfl⟩
    have hmono : Nat.log 10 (i + 1) ≤ Nat.log 10 n := Nat.log_mono_right hi
    rw [sprintfD_succ, repr_length_log, maxRowNumWidth_eq_log]
    omega

/-- Witness of C4 at 12 rows, first row. -/
theorem rowNum_spec_witness :
    (0 : Nat) < 12 ∧ (rowNum 12 0).length = maxRowNumWidth 12 + 1 :=
  ⟨by decide, (rowNum_spec 12 0 (by decide)).2.2.1⟩


theorem splitLines_ne_nil (cs : List Char) : splitLines cs ≠ [] := by
  cases cs with
  | nil => simp [splitLines]
  | cons ch rest =>
    simp only [splitLines]
    split
    · simp
    · split <;> simp

theorem splitLines_no_nl (cs : List Char) : ∀ l ∈ splitLines cs, '\n' ∉ l := by
  induction cs with
  | nil => intro l hl; simp [splitLines] at hl; simp [hl]
  | cons ch rest ih =>
    intro l hl
    simp only [splitLines] at hl
    split at hl
    · rcases List.mem_cons.mp hl with h | h
      · simp [h]
      · exact ih l h
    · rename_i hch
      split at hl
      · simp only [List.mem_singleton] at hl
        subst hl
        simp only [List.mem_singleton]
        exact fun h => hch h.symm
      · rename_i l0 ls heq
        rcases List.mem_cons.mp hl with h | h
        · subst h
          intro hmem
          rcases List.mem_cons.mp hmem with h1 | h1
          · exact hch h1.symm
          · exact ih l0 (by rw [heq]; exact List.mem_cons_self _ _) h1
        · exact ih l (by rw [heq]; exact List.mem_cons_of_mem _ h)

theorem joinLines_splitLines (cs : List Char) : joinLines (splitLines cs) = cs := by
  induction cs with
  | nil => simp [splitLines, joinLines]
  | cons ch rest ih =>
    simp only [splitLines]
    split
    · rename_i hch
      cases hs : splitLines rest with
      | nil => exact absurd hs (splitLines_ne_nil rest)
      | cons l ls =>
        rw [hs] at ih
        simp only [joinLines, List.nil_append, hch, ih]
    · cases hs : splitLines rest with
      | nil => exact absurd hs (splitLines_ne_nil rest)
      | cons l ls =>
        rw [hs] at ih
        simp only
        cases ls with
        | nil =>
          simp only [joinLines] at ih ⊢
          rw [ih]
        | cons l2 ls2 =>
          simp only [joinLines] at ih ⊢
          rw [List.cons_append, ih]

theorem splitLines_of_no_nl (l : List Char) (h : '\n' ∉ l) : splitLines l = [l] := by
  induction l with
  | nil => simp [splitLines]
  | cons ch rest ih =>
    have hch : ch ≠ '\n' := fun e => h (by rw [e]; exact List.mem_cons_self _ _)
    have hrest : '\n' ∉ rest := fun e => h (List.mem_cons_of_mem _ e)
    simp only [splitLines, hch, if_false, ih hrest]

theorem splitLines_append_nl (l rest : List Char) (h : '\n' ∉ l) :
    splitLines (l ++ '\n' :: rest) = l :: splitLines rest := by
  induction l with
  | nil => simp [splitLines]
  | cons ch tl ih =>
    have hch : ch ≠ '\n' := fun e => h (by rw [e]; exact List.mem_cons_self _ _)
    have htl : '\n' ∉ tl := fun e => h (List.mem_cons_of_mem _ e)
    show splitLines (ch :: (tl ++ '\n' :: rest)) = (ch :: tl) :: splitLines rest
    simp only [splitLines, hch, if_false, ih htl]

theorem splitLines_joinLines (ls : List (List Char)) (hne : ls ≠ [])
    (hnl : ∀ l ∈ ls, '\n' ∉ l) : splitLines (joinLines ls) = ls := by
  induction ls with
  | nil => exact absurd rfl hne
  | cons l rest ih =>
    cases rest with
    | nil =>
      simp only [joinLines]
      exact splitLines_of_no_nl l (hnl l (List.mem_cons_self _ _))
    | cons l2 ls2 =>
      simp only [joinLines]
      rw [splitLines_append_nl l _ (hnl l (List.mem_cons_self _ _))]
      rw [ih (by simp) (fun x hx => hnl x (List.mem_cons_of_mem _ hx))]

theorem stringsJoin_stringsSplit (s : String) : stringsJoinLines (stringsSplitLines s) = s := by
  unfold stringsJoinLines stringsSplitLines
  rw [List.map_map]
  have hid : (String.data ∘ String.mk) = (id : List Char → List Char) := rfl
  rw [hid, List.map_id, joinLines_splitLines]

theorem stringsSplit_stringsJoin (lines : List String) (hne : lines ≠ [])
    (hnl : ∀ l ∈ lines, '\n' ∉ l.data) :
    stringsSplitLines (stringsJoinLines lines) = lines := by
  unfold stringsJoinLines stringsSplitLines
  have h := splitLines_joinLines (lines.map String.data) (by simpa using hne)
    (by
      intro l hl
      obtain ⟨x, hx, rfl⟩ := List.mem_map.mp hl
      exact hnl x hx)
  simp only [h, List.map_map]
  have hid : (String.mk ∘ String.data) = (id : String → String) := rfl
  rw [hid, List.map_id]

theorem stringsSplitLines_no_nl (s : String) : ∀ l ∈ stringsSplitLines s, '\n' ∉ l.data := by
  intro l hl
  obtain ⟨x, hx, rfl⟩ := List.mem_map.mp hl
  exact splitLines_no_nl s.data x hx

theorem rowPrefix_no_nl (n : Nat) : '\n' ∉ (rowPrefix n).data := by
  intro h
  have := List.eq_of_mem_replicate h
  exact absurd this (by decide)

theorem rowNum_no_nl (n i : Nat) : '\n' ∉ (rowNum n i).data := by
  intro h
  simp only [rowNum, sprintfStarD, String.data_append, List.mem_append, sprintfD_succ] at h
  rcases h with (h | h) | h
  · exact absurd (List.eq_of_mem_replicate h) (by decide)
  · have := repr_mem_digits _ _ h
    revert this
    decide
  · revert h
    decide



theorem stringsSplitLines_ne_nil (s : String) : stringsSplitLines s ≠ [] := by
  unfold stringsSplitLines
  simp [splitLines_ne_nil]

theorem stringsSplitLines_withRowIndicator (n i : Nat) (row : String) :
    stringsSplitLines (withRowIndicator n i row)
      = (stringsSplitLines row).mapIdx (fun j line =>
          if j = 0 then rowNum n i ++ line else rowPrefix n ++ line) := by
  unfold withRowIndicator
  apply stringsSplit_stringsJoin
  · rw [Ne, List.mapIdx_eq_nil_iff]
    exact stringsSplitLines_ne_nil row
  · intro l hl
    obtain ⟨j, hj, rfl⟩ := List.mem_mapIdx.mp hl
    have hline := stringsSplitLines_no_nl row _ (List.getElem_mem hj)
    split
    · rw [String.data_append, List.mem_append]
      exact fun h => h.elim (rowNum_no_nl n i) hline
    · rw [String.data_append, List.mem_append]
      exact fun h => h.elim (rowPrefix_no_nl n) hline

theorem sliceFrom_append (pre line : String) (k : Nat) (h : pre.length = k) :
    sliceFrom (pre ++ line) k = line := by
  unfold sliceFrom
  rw [String.data_append, List.drop_left' h]

/-- C7: for the block of a row `i < n`, the block with row indicators has as many
physical lines as the block; its first line is the row label followed by the
first line of the block, every later line is `maxRowNumWidth + 1` spaces
followed by the line of the block at the same position, and dropping the first
`maxRowNumWidth + 1` characters of every line gives the block back. -/
theorem withRowIndicator_spec (n i : Nat) (hi : i < n) (row : String) :
    (stringsSplitLines (withRowIndicator n i row)).length = (stringsSplitLines row).length
      ∧ (∃ first, (stringsSplitLines row)[0]? = some first
            ∧ (stringsSplitLines (withRowIndicator n i row))[0]? = some (rowNum n i ++ first))
      ∧ (∀ (j : Nat) (line : String), 0 < j → (stringsSplitLines row)[j]? = some line →
            (stringsSplitLines (withRowIndicator n i row))[j]?
              = some (String.mk (List.replicate (maxRowNumWidth n + 1) ' ') ++ line))
      ∧ stringsJoinLines ((stringsSplitLines (withRowIndicator n i row)).map
            (fun l => sliceFrom l (maxRowNumWidth n + 1))) = row := by
  rw [stringsSplitLines_withRowIndicator]
  refine ⟨List.length_mapIdx, ?_, ?_, ?_⟩
  · cases hs : stringsSplitLines row with
    | nil => exact absurd hs (stringsSplitLines_ne_nil row)
    | cons first rest =>
      refine ⟨first, by simp, ?_⟩
      rw [List.getElem?_mapIdx]
      simp
  · intro j line hj hline
    rw [List.getElem?_mapIdx, hline]
    have hne : j ≠ 0 := by omega
    simp [hne, rowPrefix, stringsRepeatSpace]
  · have hmap : ((stringsSplitLines row).mapIdx (fun j line =>
          if j = 0 then rowNum n i ++ line else rowPrefix n ++ line)).map
            (fun l => sliceFrom l (maxRowNumWidth n + 1)) = stringsSplitLines row := by
      apply List.ext_getElem?
      intro j
      rw [List.getElem?_map, List.getElem?_mapIdx]
      cases (stringsSplitLines row)[j]? with
      | none => rfl
      | some line =>
        simp only [Option.map_some']
        by_cases hj : j = 0
        · rw [if_pos hj, sliceFrom_append _ _ _ (rowNum_length n i hi)]
        · rw [if_neg hj]
          unfold rowPrefix
          rw [sliceFrom_append _ _ _ (length_stringsRepeatSpace _)]
    rw [hmap, stringsJoin_stringsSplit]

/-- Witness of C7: the first of 12 rows, a block of two physical lines. -/
theorem withRowIndicator_spec_witness :
    (0 : Nat) < 12
      ∧ (stringsSplitLines (withRowIndicator 12 0 "ab\ncd")).length
          = (stringsSplitLines "ab\ncd").length
      ∧ withRowIndicator 12 0 "ab\ncd" = " 1❭ab\n   cd" :=
  ⟨by decide, (withRowIndicator_spec 12 0 (by decide) "ab\ncd").1, by decide⟩


theorem styledCells_getElem? {Mode Profile : Type} [DecidableEq Mode] (deps : Deps)
    (gridMode : Mode) (m : Model Mode Profile) (r : Nat) :
    (styledCells deps gridMode m)[r]?
      = (m.grid[r]?).map (fun row => row.mapIdx (fun c cell =>
          (chooseStyle gridMode m.mode m.cursorRow m.cursorCol r c,
            renderWidthAlign (maxContentWidth deps.Width deps.GridMaxTextWidth m.grid)
              Position.left
              (deps.truncateText cell
                (maxContentWidth deps.Width deps.GridMaxTextWidth m.grid))))) := by
  simp only [styledCells, List.getElem?_mapIdx]

theorem styledCells_style {Mode Profile : Type} [DecidableEq Mode] (deps : Deps)
    (gridMode : Mode) (m : Model Mode Profile) (r c : Nat)
    (cells : List (CellStyle × String)) (p : CellStyle × String)
    (hr : (styledCells deps gridMode m)[r]? = some cells) (hc : cells[c]? = some p) :
    p.1 = chooseStyle gridMode m.mode m.cursorRow m.cursorCol r c := by
  rw [styledCells_getElem?] at hr
  cases hg : m.grid[r]? with
  | none => rw [hg] at hr; cases hr
  | some row =>
    rw [hg] at hr
    simp only [Option.map_some', Option.some.injEq] at hr
    subst hr
    rw [List.getElem?_mapIdx] at hc
    cases hcell : row[c]? with
    | none => rw [hcell] at hc; cases hc
    | some cell =>
      rw [hcell] at hc
      simp only [Option.map_some', Option.some.injEq] at hc
      rw [← hc]

theorem styledCells_exists {Mode Profile : Type} [DecidableEq Mode] (deps : Deps)
    (gridMode : Mode) (m : Model Mode Profile) (r c : Nat) (row : List String) (cell : String)
    (hrow : m.grid[r]? = some row) (hcell : row[c]? = some cell) :
    ∃ cells p, (styledCells deps gridMode m)[r]? = some cells ∧ cells[c]? = some p := by
  rw [styledCells_getElem?, hrow]
  exact ⟨_, _, rfl, by rw [List.getElem?_mapIdx, hcell]; rfl⟩

theorem chooseStyle_selected_iff {Mode : Type} [DecidableEq Mode] (gridMode mode : Mode)
    (cursorRow cursorCol : Int) (r c : Nat) :
    chooseStyle gridMode mode cursorRow cursorCol r c = CellStyle.selectedCellStyle
      ↔ (mode = gridMode ∧ (r : Int) = cursorRow ∧ (c : Int) = cursorCol) := by
  unfold chooseStyle
  split <;> simp_all

theorem chooseStyle_normal_iff {Mode : Type} [DecidableEq Mode] (gridMode mode : Mode)
    (cursorRow cursorCol : Int) (r c : Nat) :
    chooseStyle gridMode mode cursorRow cursorCol r c = CellStyle.cellStyle
      ↔ ¬ (mode = gridMode ∧ (r : Int) = cursorRow ∧ (c : Int) = cursorCol) := by
  unfold chooseStyle
  split <;> simp_all

/-- C5: in `renderGrid` the cell at row `r`, column `c` of the grid is rendered
with `selectedCellStyle` exactly when `mode == gridMode`, `r == cursorRow` and
`c == cursorCol`, and with `cellStyle` exactly when not; so outside `gridMode`
every cell has `cellStyle`, and two cells with `selectedCellStyle` are the same
cell. -/
theorem styledCells_spec {Mode Profile : Type} [DecidableEq Mode] (deps : Deps)
    (gridMode : Mode) (m : Model Mode Profile) :
    (∀ (r c : Nat) (row : List String) (cell : String),
        m.grid[r]? = some row → row[c]? = some cell →
        ∃ cells p, (styledCells deps gridMode m)[r]? = some cells ∧ cells[c]? = some p
          ∧ (p.1 = CellStyle.selectedCellStyle
              ↔ (m.mode = gridMode ∧ (r : Int) = m.cursorRow ∧ (c : Int) = m.cursorCol))
          ∧ (p.1 = CellStyle.cellStyle
              ↔ ¬ (m.mode = gridMode ∧ (r : Int) = m.cursorRow ∧ (c : Int) = m.cursorCol))
          ∧ (renderedRows deps gridMode m)[r]?
              = some (joinHorizontalTop (cells.map (renderCell deps)))
          ∧ renderCell deps p
              = (if m.mode = gridMode ∧ (r : Int) = m.cursorRow ∧ (c : Int) = m.cursorCol
                  then deps.selectedCellStyle p.2 else deps.cellStyle p.2))
      ∧ (m.mode ≠ gridMode →
          ∀ cells ∈ styledCells deps gridMode m, ∀ p ∈ cells, p.1 = CellStyle.cellStyle)
      ∧ (∀ (r c r2 c2 : Nat) (cells cells2 : List (CellStyle × String))
          (p p2 : CellStyle × String),
          (styledCells deps gridMode m)[r]? = some cells → cells[c]? = some p →
          p.1 = CellStyle.selectedCellStyle →
          (styledCells deps gridMode m)[r2]? = some cells2 → cells2[c2]? = some p2 →
          p2.1 = CellStyle.selectedCellStyle → r = r2 ∧ c = c2) := by
  refine ⟨?_, ?_, ?_⟩
  · intro r c row cell hrow hcell
    obtain ⟨cells, q, hr, hc⟩ := styledCells_exists deps gridMode m r c row cell hrow hcell
    have hq := styledCells_style deps gridMode m r c cells q hr hc
    refine ⟨cells, q, hr, hc, ?_, ?_, ?_, ?_⟩
    · rw [hq]; exact chooseStyle_selected_iff _ _ _ _ _ _
    · rw [hq]; exact chooseStyle_normal_iff _ _ _ _ _ _
    · unfold renderedRows
      rw [List.getElem?_map, hr]
      rfl
    · unfold renderCell
      by_cases hcond : m.mode = gridMode ∧ (r : Int) = m.cursorRow ∧ (c : Int) = m.cursorCol
      · rw [if_pos hcond, hq, (chooseStyle_selected_iff _ _ _ _ _ _).mpr hcond]
      · rw [if_neg hcond, hq, (chooseStyle_normal_iff _ _ _ _ _ _).mpr hcond]
  · intro hmode cells hcells q hq
    obtain ⟨r, hr⟩ := List.getElem?_of_mem hcells
    obtain ⟨c, hc⟩ := List.getElem?_of_mem hq
    rw [styledCells_style deps gridMode m r c cells q hr hc]
    exact (chooseStyle_normal_iff _ _ _ _ _ _).mpr (fun h => hmode h.1)
  · intro r c r2 c2 cells cells2 q q2 hr hc hsel hr2 hc2 hsel2
    rw [styledCells_style deps gridMode m r c cells q hr hc] at hsel
    rw [styledCells_style deps gridMode m r2 c2 cells2 q2 hr2 hc2] at hsel2
    have h1 := (chooseStyle_selected_iff _ _ _ _ _ _).mp hsel
    have h2 := (chooseStyle_selected_iff _ _ _ _ _ _).mp hsel2
    omega


/-- Witness of C5: in the sample model the cell under the cursor is selected. -/
theorem styledCells_spec_witness :
    ∃ cells p, (styledCells sampleDeps 1 sampleModel)[1]? = some cells ∧ cells[0]? = some p
      ∧ p.1 = CellStyle.selectedCellStyle := by
  obtain ⟨cells, p, hr, hc, hsel, _⟩ :=
    (styledCells_spec sampleDeps 1 sampleModel).1 1 0 ["ccc", "d"] "ccc" rfl rfl
  exact ⟨cells, p, hr, hc, hsel.mpr (by decide)⟩

/-- C6: the header has no part, and the joined header is empty, when the grid
has no row; otherwise it has `len(grid[0])` parts whatever the other rows are,
and the part at position `c` is the header part built from the label
"[" + columnToLetter(c) + "]"; the scenario grid gives the parts of [A] and
[B]. -/
theorem headerParts_spec (titleStyle : String → String) (mcw : Nat)
    (grid : List (List String)) :
    (grid = [] → headerParts titleStyle mcw grid = [] ∧ fullHeader titleStyle mcw grid = "")
      ∧ (∀ (row0 : List String) (rest : List (List String)), grid = row0 :: rest →
          (headerParts titleStyle mcw grid).length = row0.length
          ∧ ∀ c : Nat, c < row0.length →
              (headerParts titleStyle mcw grid)[c]? = some (headerPart titleStyle mcw (c : Int))
              ∧ headerPart titleStyle mcw (c : Int)
                  = "┌" ++ stringsReplaceSpaces (renderWidthAlign (mcw + 2) Position.center
                      (titleStyle ("[" ++ columnToLetter (c : Int) ++ "]"))) ++ "┐")
      ∧ headerParts id (maxContentWidth plainWidth 10 [["a", "bb"], ["ccc", "d"]])
          [["a", "bb"], ["ccc", "d"]] = ["┌─[A]─┐", "┌─[B]─┐"] := by
  refine ⟨?_, ?_, by decide⟩
  · intro h
    subst h
    exact ⟨rfl, rfl⟩
  · intro row0 rest h
    subst h
    refine ⟨by simp [headerParts], ?_⟩
    intro c hc
    refine ⟨?_, rfl⟩
    simp only [headerParts]
    rw [List.getElem?_map, List.getElem?_range hc]
    rfl

/-- Witness of C6: the scenario grid has two header parts. -/
theorem headerParts_spec_witness :
    (headerParts id 3 [["a", "bb"], ["ccc", "d"]]).length = 2 :=
  ((headerParts_spec id 3 [["a", "bb"], ["ccc", "d"]]).2.1 ["a", "bb"] [["ccc", "d"]] rfl).1


theorem wrapChars_fits (limit : Nat) (l : List Char) : ∀ (lineLen : Nat), '\n' ∉ l →
    lineLen + l.length ≤ limit → wrapChars limit lineLen l = l := by
  induction l with
  | nil => intro lineLen _ _; rfl
  | cons ch rest ih =>
    intro lineLen hnl hfit
    have hch : ch ≠ '\n' := fun e => hnl (by rw [e]; exact List.mem_cons_self _ _)
    have hrest : '\n' ∉ rest := fun e => hnl (List.mem_cons_of_mem _ e)
    simp only [List.length_cons] at hfit
    have hle : ¬ (lineLen + 1 > limit) := by omega
    simp only [wrapChars, hch, hle, if_false]
    rw [ih (lineLen + 1) hrest (by omega)]

theorem stringsSplitLines_single (s : String) (h : '\n' ∉ s.data) :
    stringsSplitLines s = [s] := by
  unfold stringsSplitLines
  rw [splitLines_of_no_nl s.data h]
  rfl

theorem stringsJoinLines_single (s : String) : stringsJoinLines [s] = s := rfl

theorem renderWidthAlign_fits (width : Nat) (pos : Position) (s : String)
    (hw : 0 < width) (hnl : '\n' ∉ s.data) (hfit : s.length ≤ width) :
    renderWidthAlign width pos s = alignLine pos width s.length s := by
  have hwrap : String.mk (wrapChars width 0 s.data) = s := by
    have hfit2 : 0 + s.data.length ≤ width := by
      rw [Nat.zero_add]
      exact hfit
    rw [wrapChars_fits width s.data 0 hnl hfit2]
  have hcond : ¬ (s.data.count '\n' = 0 ∧ width = 0) := by omega
  simp only [renderWidthAlign, hw, if_true, hwrap, hcond, not_false_eq_true]
  simp only [alignTextHorizontal, stringsSplitLines_single s hnl, List.map_cons, List.map_nil,
    List.foldr_cons, List.foldr_nil, Nat.max_zero, stringsJoinLines_single]

theorem alignLine_center_data (width : Nat) (s : String) :
    ∃ a b : Nat, a + b = width - s.length
      ∧ (alignLine Position.center width s.length s).data
          = List.replicate a ' ' ++ s.data ++ List.replicate b ' ' := by
  unfold alignLine
  simp only [Nat.sub_self, Nat.zero_add]
  by_cases hpos : width - s.length > 0
  · refine ⟨(width - s.length) / 2, (width - s.length) / 2 + (width - s.length) % 2, by omega, ?_⟩
    simp only [hpos, if_true, String.data_append, stringsRepeatSpace]
  · refine ⟨0, 0, by omega, ?_⟩
    simp only [hpos, if_false, List.replicate_zero, List.nil_append, List.append_nil]

/-- The header part is one line of `maxContentWidth + 4` columns whenever the
styled label is one line that fits the interior of `maxContentWidth + 2`
columns. -/
theorem headerPart_width_of_fits (titleStyle : String → String) (mcw : Nat) (c : Int)
    (hnl : '\n' ∉ (titleStyle (headerLabel c)).data)
    (hfit : (titleStyle (headerLabel c)).length ≤ mcw + 2) :
    stringsSplitLines (headerPart titleStyle mcw c) = [headerPart titleStyle mcw c]
      ∧ (headerPart titleStyle mcw c).length = mcw + 4
      ∧ plainWidth (headerPart titleStyle mcw c) = mcw + 4 := by
  obtain ⟨a, b, hab, hdata⟩ := alignLine_center_data (mcw + 2) (titleStyle (headerLabel c))
  have hrender := renderWidthAlign_fits (mcw + 2) Position.center (titleStyle (headerLabel c))
    (by omega) hnl hfit
  have hpart : (headerPart titleStyle mcw c).data
      = '┌' :: ((List.replicate a ' ' ++ (titleStyle (headerLabel c)).data
          ++ List.replicate b ' ').map (fun ch => if ch = ' ' then '─' else ch)) ++ ['┐'] := by
    have h2 : mcw + 4 - 2 = mcw + 2 := by omega
    simp only [headerPart, h2, hrender, String.data_append, stringsReplaceSpaces, hdata]
    rfl
  have hlen : (headerPart titleStyle mcw c).length = mcw + 4 := by
    have hl : (titleStyle (headerLabel c)).data.length ≤ mcw + 2 := hfit
    have hab2 : a + b = mcw + 2 - (titleStyle (headerLabel c)).data.length := hab
    show (headerPart titleStyle mcw c).data.length = mcw + 4
    rw [hpart]
    simp only [List.length_cons, List.length_append, List.length_map,
      List.length_replicate, List.length_nil]
    omega
  have hno : '\n' ∉ (headerPart titleStyle mcw c).data := by
    rw [hpart]
    intro hmem
    rcases List.mem_append.mp hmem with hmem | hmem
    · rcases List.mem_cons.mp hmem with h | h
      · exact absurd h (by decide)
      · obtain ⟨x, hx, hxe⟩ := List.mem_map.mp h
        by_cases hsp : x = ' '
        · rw [if_pos hsp] at hxe
          exact absurd hxe (by decide)
        · rw [if_neg hsp] at hxe
          subst hxe
          rcases List.mem_append.mp hx with hx | hx
          · rcases List.mem_append.mp hx with hx | hx
            · exact hsp (List.eq_of_mem_replicate hx)
            · exact hnl hx
          · exact hsp (List.eq_of_mem_replicate hx)
    · exact absurd (List.mem_singleton.mp hmem) (by decide)
  have hsplit := stringsSplitLines_single _ hno
  refine ⟨hsplit, hlen, ?_⟩
  unfold plainWidth
  rw [hsplit]
  simp [hlen]

theorem headerLabel_data (c : Int) :
    ∃ x : Char, x ≠ '\n' ∧ (headerLabel c).data = ['[', x, ']'] := by
  unfold headerLabel columnToLetter
  by_cases h : c < 0 ∨ c > 25
  · rw [if_pos h]
    exact ⟨'?', by decide, rfl⟩
  · rw [if_neg h]
    have h0 : 0 ≤ c := by omega
    have h25 : c ≤ 25 := by omega
    refine ⟨Char.ofNat (('A'.toNat : Int) + c).toNat, ?_, rfl⟩
    interval_cases c <;> decide

/-- With a title style that adds no glyph, every header part is one line of
`maxContentWidth + 4` columns as soon as `maxContentWidth` is at least 1. -/
theorem headerPart_width_of_pos (mcw : Nat) (c : Int) (hpos : 1 ≤ mcw) :
    stringsSplitLines (headerPart id mcw c) = [headerPart id mcw c]
      ∧ plainWidth (headerPart id mcw c) = mcw + 4 := by
  obtain ⟨x, hx, hdata⟩ := headerLabel_data c
  have hnl : '\n' ∉ (id (headerLabel c)).data := by
    show '\n' ∉ (headerLabel c).data
    rw [hdata]
    simp only [List.mem_cons, List.not_mem_nil, or_false]
    rintro (h | h | h)
    · exact absurd h (by decide)
    · exact hx h.symm
    · exact absurd h (by decide)
  have hfit : (id (headerLabel c)).length ≤ mcw + 2 := by
    show (headerLabel c).data.length ≤ mcw + 2
    rw [hdata]
    simp only [List.length_cons, List.length_nil]
    omega
  have h := headerPart_width_of_fits id mcw c hnl hfit
  exact ⟨h.1, h.2.2⟩

theorem maxContentWidth_empty_cell (GridMaxTextWidth : Nat) :
    maxContentWidth plainWidth GridMaxTextWidth [[""]] = 0 := by
  have hscan : scanContentWidth plainWidth [[""]] = 0 := by decide
  unfold maxContentWidth
  rw [hscan]
  simp

/-- C8 at the grid of one empty cell, whatever `GridMaxTextWidth` is:
`maxContentWidth` is 0, the interior of the header is 2 columns, the label
"[A]" does not fit and is wrapped, and the header part is the two lines "┌[A"
and "]─┐", 3 columns wide, not one line of `0 + 4` columns. -/
theorem headerPart_empty_grid_cell (GridMaxTextWidth : Nat) :
    maxContentWidth plainWidth GridMaxTextWidth [[""]] = 0
      ∧ headerParts id (maxContentWidth plainWidth GridMaxTextWidth [[""]]) [[""]]
          = ["┌[A\n]─┐"]
      ∧ stringsSplitLines "┌[A\n]─┐" = ["┌[A", "]─┐"]
      ∧ plainWidth "┌[A\n]─┐" = 3
      ∧ plainWidth "┌[A\n]─┐" ≠ maxContentWidth plainWidth GridMaxTextWidth [[""]] + 4 := by
  rw [maxContentWidth_empty_cell]
  exact ⟨rfl, by decide, by decide, by decide, by decide⟩


theorem lastIndex_none_iff (l : List Char) :
    stringsLastIndexBackslash l = -1 ↔ '\\' ∉ l := by
  induction l with
  | nil => simp [stringsLastIndexBackslash]
  | cons ch rest ih =>
    simp only [stringsLastIndexBackslash, List.mem_cons, not_or]
    by_cases hrest : stringsLastIndexBackslash rest = -1
    · have hnot := ih.mp hrest
      by_cases hch : ch = '\\'
      · simp [hrest, hch]
      · simp [hrest, hch, hnot, Ne.symm hch]
    · have hmem : ¬ ('\\' ∉ rest) := fun h => hrest (ih.mpr h)
      have hge : ∀ r : List Char, -1 ≤ stringsLastIndexBackslash r := by
        intro r
        induction r with
        | nil => simp [stringsLastIndexBackslash]
        | cons c2 r2 ih2 =>
          simp only [stringsLastIndexBackslash]
          split
          · omega
          · split <;> omega
      have := hge rest
      simp only [ne_eq, hrest, not_false_eq_true, if_true, hmem, and_false, iff_false]
      omega

theorem lastIndex_split (l : List Char) (h : '\\' ∈ l) :
    ∃ k : Nat, stringsLastIndexBackslash l = (k : Int)
      ∧ l = l.take k ++ '\\' :: l.drop (k + 1)
      ∧ '\\' ∉ l.drop (k + 1) := by
  induction l with
  | nil => cases h
  | cons ch rest ih =>
    by_cases hrest : '\\' ∈ rest
    · obtain ⟨k, hk, hsplit, hno⟩ := ih hrest
      refine ⟨k + 1, ?_, ?_, ?_⟩
      · have hne : stringsLastIndexBackslash rest ≠ -1 := by rw [hk]; omega
        simp only [stringsLastIndexBackslash, hne, ne_eq, not_false_eq_true, if_true, hk]
        push_cast
        rfl
      · simp only [List.take_succ_cons, List.drop_succ_cons, List.cons_append]
        rw [← hsplit]
      · simpa only [List.drop_succ_cons] using hno
    · have hidx : stringsLastIndexBackslash rest = -1 := (lastIndex_none_iff rest).mpr hrest
      have hch : ch = '\\' := by
        rcases List.mem_cons.mp h with h1 | h1
        · exact h1.symm
        · exact absurd h1 hrest
      refine ⟨0, ?_, ?_, ?_⟩
      · simp [stringsLastIndexBackslash, hidx, hch]
      · simp [hch]
      · simpa using hrest

theorem cleanUsername_of_no_backslash (username : String) (h : '\\' ∉ username.data) :
    cleanUsername username = username := by
  unfold cleanUsername
  simp only [(lastIndex_none_iff username.data).mpr h, ne_eq, not_true_eq_false, if_false]

theorem cleanUsername_split (username : String) (h : '\\' ∈ username.data) :
    ∃ pre : String, username = pre ++ "\\" ++ cleanUsername username
      ∧ '\\' ∉ (cleanUsername username).data := by
  obtain ⟨k, hk, hsplit, hno⟩ := lastIndex_split username.data h
  have hne : stringsLastIndexBackslash username.data ≠ -1 := by rw [hk]; omega
  have hclean : cleanUsername username = String.mk (username.data.drop (k + 1)) := by
    unfold cleanUsername
    simp only [hne, ne_eq, not_false_eq_true, if_true, hk, sliceFrom]
    rfl
  refine ⟨String.mk (username.data.take k), ?_, ?_⟩
  · apply String.ext
    rw [hclean, String.data_append, String.data_append]
    show username.data = (username.data.take k ++ ['\\']) ++ username.data.drop (k + 1)
    rw [List.append_assoc]
    exact hsplit
  · rw [hclean]
    exact hno

/-- C10: when the name holds a backslash the clean-up of `renderProfileBar` gives
the part after the last one: the name is some prefix, a backslash, and the
result, and the result holds no backslash; a name without a backslash is left
as it is; cleaning twice is cleaning once. -/
theorem cleanUsername_spec (username : String) :
    ('\\' ∈ username.data →
        ∃ pre : String, username = pre ++ "\\" ++ cleanUsername username
          ∧ '\\' ∉ (cleanUsername username).data)
      ∧ ('\\' ∉ username.data → cleanUsername username = username)
      ∧ '\\' ∉ (cleanUsername username).data
      ∧ cleanUsername (cleanUsername username) = cleanUsername username := by
  have hno : '\\' ∉ (cleanUsername username).data := by
    by_cases h : '\\' ∈ username.data
    · exact (cleanUsername_split username h).choose_spec.2
    · rw [cleanUsername_of_no_backslash username h]
      exact h
  exact ⟨cleanUsername_split username, cleanUsername_of_no_backslash username, hno,
    cleanUsername_of_no_backslash _ hno⟩

/-- Witness of C10: a name with two backslashes. -/
theorem cleanUsername_spec_witness :
    ∃ pre : String, "CORP\\dev\\alice" = pre ++ "\\" ++ cleanUsername "CORP\\dev\\alice"
      ∧ '\\' ∉ (cleanUsername "CORP\\dev\\alice").data :=
  (cleanUsername_spec "CORP\\dev\\alice").1 (by decide)


theorem foldr_max_const_one {α : Type} (l : List α) (hne : l ≠ []) :
    (l.map (fun _ => 1)).foldr max 0 = 1 := by
  induction l with
  | nil => exact absurd rfl hne
  | cons a rest ih =>
    cases rest with
    | nil => rfl
    | cons b r =>
      simp only [List.map_cons, List.foldr_cons] at ih ⊢
      rw [ih (by simp)]
      rfl

theorem stringsRepeatSpace_zero : stringsRepeatSpace 0 = "" := rfl

theorem joinHorizontalTop_single_lines (strs : List String)
    (hnl : ∀ s ∈ strs, '\n' ∉ s.data) : joinHorizontalTop strs = String.join strs := by
  match strs, hnl with
  | [], _ => rfl
  | [s], _ => simp [joinHorizontalTop, String.join]
  | a :: b :: rest, hnl =>
    have hblocks : (a :: b :: rest).map stringsSplitLines = (a :: b :: rest).map (fun s => [s]) := by
      apply List.map_congr_left
      intro s hs
      exact stringsSplitLines_single s (hnl s hs)
    have hheight : (((a :: b :: rest).map (fun s => [s])).map List.length).foldr max 0 = 1 := by
      rw [List.map_map]
      exact foldr_max_const_one (a :: b :: rest) (by simp)
    simp only [joinHorizontalTop, hblocks, hheight]
    have hinner : ∀ l : List String,
        List.map (fun bw : List String × Nat =>
            bw.1.getD 0 "" ++ stringsRepeatSpace (bw.2 - (bw.1.getD 0 "").length))
          ((List.map (fun b => b ++ List.replicate (1 - b.length) "")
                (List.map (fun s => [s]) l)).zip
            (List.map (fun b => List.foldr max 0 (List.map String.length b))
              (List.map (fun s => [s]) l))) = l := by
      intro l
      induction l with
      | nil => rfl
      | cons x xs ih =>
        simp only [List.map_cons, List.zip_cons_cons, ih]
        congr 1
        show x ++ stringsRepeatSpace (max x.length 0 - x.length) = x
        rw [Nat.max_zero, Nat.sub_self]
        apply String.ext
        rw [String.data_append]
        exact List.append_nil _
    show stringsJoinLines [String.join _] = _
    rw [hinner]
    rfl

theorem foldl_append_acc (acc : String) (l : List String) :
    l.foldl (fun r s => r ++ s) acc = acc ++ l.foldl (fun r s => r ++ s) "" := by
  induction l generalizing acc with
  | nil => simp
  | cons x xs ih =>
    simp only [List.foldl_cons]
    rw [ih (acc ++ x), ih ("" ++ x), String.empty_append, String.append_assoc]

theorem stringJoin_cons (x : String) (xs : List String) :
    String.join (x :: xs) = x ++ String.join xs := by
  unfold String.join
  rw [List.foldl_cons, foldl_append_acc, String.empty_append]

theorem renderedRows_length {Mode Profile : Type} [DecidableEq Mode] (deps : Deps)
    (gridMode : Mode) (m : Model Mode Profile) :
    (renderedRows deps gridMode m).length = m.grid.length := by
  simp [renderedRows, styledCells]

theorem finalRows_getElem? (rows : List String) (i : Nat) :
    (finalRows rows)[i]? = (rows[i]?).map (withRowIndicator rows.length i) := by
  simp only [finalRows, List.getElem?_mapIdx]

theorem hostLabel_eq (deps : Deps) (os : OSEnv) :
    hostLabel deps os
      = "HOST: " ++ shownUsername os ++ "@" ++ hostnameOf os
          ++ (" " ++ ("(" ++ os.GOOS ++ "/" ++ os.GOARCH ++ ")") ++ deps.helpStyle " | ") := by
  simp only [hostLabel, String.append_assoc]

theorem profileBarSegments_head {Mode Profile : Type} (deps : Deps) (os : OSEnv)
    (activeProfileName : String) (m : Model Mode Profile) :
    ∃ (post : String) (more : List String),
      profileBarSegments deps os activeProfileName m
        = ("HOST: " ++ shownUsername os ++ "@" ++ hostnameOf os ++ post) :: more
      ∧ (m.pivotProfileName = "" → m.profileStatusMessage = "" → more = []) := by
  refine ⟨(" " ++ ("(" ++ os.GOOS ++ "/" ++ os.GOARCH ++ ")") ++ deps.helpStyle " | ")
      ++ ("PROFILE: " ++ activeProfileName), ?_⟩
  have hfirst : hostLabel deps os ++ "PROFILE: " ++ activeProfileName
      = "HOST: " ++ shownUsername os ++ "@" ++ hostnameOf os
          ++ ((" " ++ ("(" ++ os.GOOS ++ "/" ++ os.GOARCH ++ ")") ++ deps.helpStyle " | ")
            ++ ("PROFILE: " ++ activeProfileName)) := by
    rw [hostLabel_eq]
    simp only [String.append_assoc]
  unfold profileBarSegments
  simp only [hfirst]
  by_cases hp : m.pivotProfileName = "" <;> by_cases hs : m.profileStatusMessage = "" <;>
    simp [hp, hs]

theorem splitLines_append_prefix (p q : List Char) (hp : '\n' ∉ p) :
    ∃ (l : List Char) (ls : List (List Char)), splitLines (p ++ q) = (p ++ l) :: ls := by
  induction p with
  | nil =>
    cases hs : splitLines q with
    | nil => exact absurd hs (splitLines_ne_nil q)
    | cons l ls => exact ⟨l, ls, by simp [hs]⟩
  | cons ch tl ih =>
    have hch : ch ≠ '\n' := fun e => hp (by rw [e]; exact List.mem_cons_self _ _)
    have htl : '\n' ∉ tl := fun e => hp (List.mem_cons_of_mem _ e)
    obtain ⟨l, ls, hsplit⟩ := ih htl
    refine ⟨l, ls, ?_⟩
    show splitLines (ch :: (tl ++ q)) = (ch :: (tl ++ l)) :: ls
    simp only [splitLines, hch, if_false, hsplit]

theorem joinLines_cons_prefix (x : List Char) (rest : List (List Char)) :
    ∃ t : List Char, joinLines (x :: rest) = x ++ t := by
  cases rest with
  | nil => exact ⟨[], by simp [joinLines]⟩
  | cons y ys => exact ⟨'\n' :: joinLines (y :: ys), rfl⟩

theorem mergeLines_prefix (b0 : List String) (w0 : Nat) (blocks : List (List String))
    (widths : List Nat) (height : Nat) (p : List Char) (hpos : 0 < height)
    (hb : ∃ l : List Char, (b0.getD 0 "").data = p ++ l) :
    ∃ t : List Char,
      (stringsJoinLines ((List.range height).map (fun i =>
          String.join (((b0 :: blocks).zip (w0 :: widths)).map (fun bw =>
            bw.1.getD i "" ++ stringsRepeatSpace (bw.2 - (bw.1.getD i "").length)))))).data
        = p ++ t := by
  obtain ⟨k, rfl⟩ : ∃ k, height = k + 1 := ⟨height - 1, by omega⟩
  obtain ⟨l, hl⟩ := hb
  rw [List.range_succ_eq_map]
  simp only [List.map_cons, List.zip_cons_cons, stringJoin_cons, stringsJoinLines]
  obtain ⟨t, ht⟩ := joinLines_cons_prefix
    (b0.getD 0 "" ++ stringsRepeatSpace (w0 - (b0.getD 0 "").length) ++
      String.join (List.map (fun bw : List String × Nat =>
        bw.1.getD 0 "" ++ stringsRepeatSpace (bw.2 - (bw.1.getD 0 "").length))
        (blocks.zip widths))).data
    (List.map String.data (List.map (fun i =>
        (((b0.getD i "" ++ stringsRepeatSpace (w0 - (b0.getD i "").length)) ++
          String.join (List.map (fun bw : List String × Nat =>
            bw.1.getD i "" ++ stringsRepeatSpace (bw.2 - (bw.1.getD i "").length))
            (blocks.zip widths)))))
      (List.map Nat.succ (List.range k))))
  rw [ht]
  simp only [String.data_append, List.append_assoc, hl]
  exact ⟨_, rfl⟩

theorem foldr_max_pos (n : Nat) (l : List Nat) (hn : 0 < n) : 0 < (n :: l).foldr max 0 := by
  simp only [List.foldr_cons]
  omega

theorem joinHorizontalTop_prefix (a : String) (more : List String) (p q : List Char)
    (ha : a.data = p ++ q) (hp : '\n' ∉ p) :
    ∃ t : List Char, (joinHorizontalTop (a :: more)).data = p ++ t := by
  cases more with
  | nil => exact ⟨q, ha⟩
  | cons b rest =>
    obtain ⟨l, ls, hsplit⟩ := splitLines_append_prefix p q hp
    have hsa : stringsSplitLines a = String.mk (p ++ l) :: ls.map String.mk := by
      unfold stringsSplitLines
      rw [ha, hsplit]
      rfl
    simp only [joinHorizontalTop, List.map_cons]
    apply mergeLines_prefix
    · apply foldr_max_pos
      rw [hsa]
      simp
    · rw [hsa]
      exact ⟨l, rfl⟩

/-- C9 as stated fails: with a failed user lookup and `USER` set to
`CORP\alice` the name shown is "alice", not the value of `USER`, and the bar
reads "alice@host".  And with `USER` "alice", a hostname of the two lines "a"
and "b" and a pivot profile, the bar puts the lock badge after the first line
of the host segment, so "alice@" followed by the hostname is not in the bar
text. -/
theorem shownUsername_ne_env :
    sampleOS.Current = none
      ∧ sampleOS.Getenv "USER" = "CORP\\alice"
      ∧ shownUsername sampleOS = "alice"
      ∧ shownUsername sampleOS ≠ sampleOS.Getenv "USER"
      ∧ profileBarText sampleDeps sampleOS "default" sampleModel
          = "HOST: alice@host (linux/amd64) | PROFILE: default"
      ∧ sampleOSLineFeed.Current = none
      ∧ shownUsername sampleOSLineFeed = "alice"
      ∧ hostnameOf sampleOSLineFeed = "a\nb"
      ∧ profileBarText sampleDeps sampleOSLineFeed "default" sampleModelPivot
          = "HOST: alice@a                     🔒 p\nb (linux/amd64) | PROFILE: default   "
      ∧ ¬ ("alice@a\nb".data
            <:+: ("HOST: alice@a                     🔒 p\nb (linux/amd64) | PROFILE: default   ").data) :=
  ⟨rfl, by decide, by decide, by decide, by decide, rfl, by decide, by decide, by decide,
    by decide⟩

theorem hostPrefix_no_lineFeed (u h : String) (hu : '\n' ∉ u.data) (hh : '\n' ∉ h.data) :
    '\n' ∉ ("HOST: " ++ u ++ "@" ++ h).data := by
  simp only [String.data_append, List.mem_append, not_or]
  exact ⟨⟨⟨by decide, hu⟩, by decide⟩, hh⟩

theorem profileBarText_prefix {Mode Profile : Type} (deps : Deps) (os : OSEnv)
    (activeProfileName : String) (m : Model Mode Profile)
    (hu : '\n' ∉ (shownUsername os).data) (hh : '\n' ∉ (hostnameOf os).data) :
    ∃ post : String, profileBarText deps os activeProfileName m
      = "HOST: " ++ shownUsername os ++ "@" ++ hostnameOf os ++ post := by
  obtain ⟨post, more, hseg, _⟩ := profileBarSegments_head deps os activeProfileName m
  obtain ⟨t, ht⟩ := joinHorizontalTop_prefix
    ("HOST: " ++ shownUsername os ++ "@" ++ hostnameOf os ++ post) more
    ("HOST: " ++ shownUsername os ++ "@" ++ hostnameOf os).data post.data
    (String.data_append _ _) (hostPrefix_no_lineFeed _ _ hu hh)
  refine ⟨String.mk t, ?_⟩
  apply String.ext
  unfold profileBarText
  rw [hseg, ht]
  simp only [String.data_append, List.append_assoc]

/-- C9, amended: the name shown is the clean-up of the value of `USER` when the
user lookup fails and the clean-up of the looked-up name when it succeeds (the
value itself when it holds no backslash); a failed hostname lookup gives the
empty hostname; the first segment of the bar starts with "HOST: ", the name
shown, "@" and the hostname, and so does the bar text when the name shown and
the hostname hold no line feed, or when no pivot profile and no status message
is set; with a failed lookup and `USER` "alice" the bar text starts with
"HOST: alice@" and the hostname when the hostname holds no line feed. -/
theorem profileBar_identity_spec {Mode Profile : Type} (deps : Deps) (os : OSEnv)
    (activeProfileName : String) (m : Model Mode Profile) :
    (os.Current = none → shownUsername os = cleanUsername (os.Getenv "USER"))
      ∧ (∀ u : User, os.Current = some u → shownUsername os = cleanUsername u.Username)
      ∧ ('\\' ∉ (resolvedUsername os).data → shownUsername os = resolvedUsername os)
      ∧ (os.Hostname = none → hostnameOf os = "")
      ∧ (∀ h : String, os.Hostname = some h → hostnameOf os = h)
      ∧ (∃ (post : String) (more : List String),
          profileBarSegments deps os activeProfileName m
            = ("HOST: " ++ shownUsername os ++ "@" ++ hostnameOf os ++ post) :: more)
      ∧ ('\n' ∉ (shownUsername os).data → '\n' ∉ (hostnameOf os).data →
          ∃ post : String, profileBarText deps os activeProfileName m
            = "HOST: " ++ shownUsername os ++ "@" ++ hostnameOf os ++ post)
      ∧ (m.pivotProfileName = "" → m.profileStatusMessage = "" →
          ∃ post : String, profileBarText deps os activeProfileName m
            = "HOST: " ++ shownUsername os ++ "@" ++ hostnameOf os ++ post)
      ∧ ((∀ seg ∈ profileBarSegments deps os activeProfileName m, '\n' ∉ seg.data) →
          ∃ post : String, profileBarText deps os activeProfileName m
            = "HOST: " ++ shownUsername os ++ "@" ++ hostnameOf os ++ post)
      ∧ (os.Current = none → os.Getenv "USER" = "alice" →
          (∃ (post : String) (more : List String),
            profileBarSegments deps os activeProfileName m
              = ("HOST: alice@" ++ hostnameOf os ++ post) :: more)
          ∧ ('\n' ∉ (hostnameOf os).data →
              ∃ post : String, profileBarText deps os activeProfileName m
                = "HOST: alice@" ++ hostnameOf os ++ post)) := by
  obtain ⟨post, more, hseg, hmore⟩ := profileBarSegments_head deps os activeProfileName m
  refine ⟨?_, ?_, ?_, ?_, ?_, ⟨post, more, hseg⟩,
    profileBarText_prefix deps os activeProfileName m, ?_, ?_, ?_⟩
  · intro h
    simp only [shownUsername, resolvedUsername, h]
  · intro u h
    simp only [shownUsername, resolvedUsername, h]
  · intro h
    exact cleanUsername_of_no_backslash _ h
  · intro h
    simp only [hostnameOf, h]
  · intro name h
    simp only [hostnameOf, h]
  · intro hp hs
    refine ⟨post, ?_⟩
    unfold profileBarText
    rw [hseg, hmore hp hs]
    rfl
  · intro hlines
    refine ⟨post ++ String.join more, ?_⟩
    unfold profileBarText
    rw [joinHorizontalTop_single_lines _ hlines, hseg, stringJoin_cons]
    simp only [String.append_assoc]
  · intro hcur henv
    have hshown : shownUsername os = "alice" := by
      simp only [shownUsername, resolvedUsername, hcur, henv]
      decide
    refine ⟨⟨post, more, ?_⟩, ?_⟩
    · rw [hseg, hshown]
      rfl
    · intro hh
      have hu : '\n' ∉ (shownUsername os).data := by
        rw [hshown]
        decide
      obtain ⟨post2, hbar⟩ := profileBarText_prefix deps os activeProfileName m hu hh
      refine ⟨post2, ?_⟩
      rw [hbar, hshown]
      rfl

/-- Witness of C9 amended: both lookups fail and `USER` is "alice". -/
theorem profileBar_identity_spec_witness :
    sampleOSAlice.Current = none ∧ sampleOSAlice.Getenv "USER" = "alice"
      ∧ '\n' ∉ (hostnameOf sampleOSAlice).data
      ∧ shownUsername sampleOSAlice = cleanUsername "alice"
      ∧ hostnameOf sampleOSAlice = ""
      ∧ ∃ post : String, profileBarText sampleDeps sampleOSAlice "default" sampleModelPivot
            = "HOST: alice@" ++ hostnameOf sampleOSAlice ++ post :=
  ⟨rfl, by decide, by decide,
    (profileBar_identity_spec sampleDeps sampleOSAlice "default" sampleModelPivot).1 rfl,
    (profileBar_identity_spec sampleDeps sampleOSAlice "default" sampleModelPivot).2.2.2.1 rfl,
    ((profileBar_identity_spec sampleDeps sampleOSAlice "default"
        sampleModelPivot).2.2.2.2.2.2.2.2.2 rfl (by decide)).2 (by decide)⟩

end GridView
